import Mathlib

/-!
# Verification of the Cassion dishwashing pipeline

A shallow embedding of `parallel_dishwashing.py`, `sequential_dishwashing.py`
and `quick_test.py`.

* The `Dish` class (identical in both Python modules) becomes the `Dish`
  structure.  Besides the source fields `dish_id`, `dish_type` and `status`
  we carry a ghost field `hist` recording every value the `status` field has
  ever been assigned (history variable); every assignment `dish.status = v`
  in the source is embedded as `setStatus v`, which writes `status` and
  appends to `hist`.
* `random.choice` on dish types is abstracted as a function
  `kinds : Nat → DType` (one draw per generated dish); the per-stage
  `random.uniform(0.1, 0.3)` latencies and `time.sleep` are unobservable in
  the state and are dropped.
* The threaded pipeline of `ParallelDishwasher.process_parallel` is embedded
  as a small-step interleaving transition system `Step` over `PState`:
  one control state per worker thread (`WState`), one for the coordinator
  (`CState`), the four `queue.Queue` buffers as FIFO lists, and ghost
  counters `enq/deq/ack` per queue so that Python's
  `unfinished_tasks` is `enq - ack` (incremented by `put`, decremented by
  `task_done`); `Queue.join()` is the coordinator step enabled exactly when
  that difference is zero.
* Wall-clock metrics divisions (`float`) are embedded over `ℚ` with a
  fallible division `fdiv` returning `none` exactly where Python raises
  `ZeroDivisionError`.
-/

namespace Dishwashing

/-- The five dish status strings: `"dirty"`, `"pre-rinsed"`, `"washed"`,
`"dried"`, `"stored"`. -/
inductive St where
  | dirty
  | prerinsed
  | washed
  | dried
  | stored
deriving DecidableEq, Repr

/-- The three dish types drawn by `random.choice(["plate", "bowl", "utensil"])`. -/
inductive DType where
  | plate
  | bowl
  | utensil
deriving DecidableEq, Repr

/-- The `Dish` class: `dish_id`, `dish_type`, mutable `status` (initially
`"dirty"`), plus the ghost history `hist` of all values `status` has taken. -/
structure Dish where
  dish_id : Nat
  dish_type : DType
  status : St
  hist : List St
deriving DecidableEq, Repr

/-- The assignment `dish.status = v` of the source, with the ghost history
append. -/
def setStatus (v : St) (d : Dish) : Dish :=
  { d with status := v, hist := d.hist ++ [v] }

@[simp] theorem setStatus_id (v : St) (d : Dish) : (setStatus v d).dish_id = d.dish_id := rfl

@[simp] theorem setStatus_status (v : St) (d : Dish) : (setStatus v d).status = v := rfl

@[simp] theorem setStatus_hist (v : St) (d : Dish) :
    (setStatus v d).hist = d.hist ++ [v] := rfl

/-- `_generate_dishes` (identical in both modules): dishes with ids
`1, …, n`, a drawn type, and status `"dirty"`.  The RNG draw for dish `i+1`
is abstracted as `kinds i`. -/
def generateDishes (kinds : Nat → DType) (n : Nat) : List Dish :=
  (List.range n).map fun i =>
    { dish_id := i + 1, dish_type := kinds i, status := St.dirty, hist := [St.dirty] }

@[simp] theorem length_generateDishes (kinds : Nat → DType) (n : Nat) :
    (generateDishes kinds n).length = n := by
  simp [generateDishes]

theorem map_id_generateDishes (kinds : Nat → DType) (n : Nat) :
    (generateDishes kinds n).map Dish.dish_id = (List.range n).map (· + 1) := by
  simp [generateDishes]

theorem nodup_ids_generateDishes (kinds : Nat → DType) (n : Nat) :
    ((generateDishes kinds n).map Dish.dish_id).Nodup := by
  rw [map_id_generateDishes]
  exact List.Nodup.map (fun a b h => by omega) (List.nodup_range n)

/-! ## Sequential strategy (`sequential_dishwashing.py`) -/

/-- Stage 1 of the sequential dishwasher: `dish.status = "pre-rinsed"`. -/
def pre_rinse (d : Dish) : Dish := setStatus St.prerinsed d

/-- Stage 2: `dish.status = "washed"`. -/
def wash (d : Dish) : Dish := setStatus St.washed d

/-- Stage 3: `dish.status = "dried"`. -/
def dry (d : Dish) : Dish := setStatus St.dried d

/-- Stage 4: `dish.status = "stored"`. -/
def store (d : Dish) : Dish := setStatus St.stored d

/-- The body of the `process_sequential` loop: each dish goes through all
four stages before the next dish starts. -/
def processDishSeq (d : Dish) : Dish := store (dry (wash (pre_rinse d)))

/-- The dish-processing effect of `SequentialDishwasher.process_sequential`
on the generated dish list. -/
def sequentialRun (kinds : Nat → DType) (n : Nat) : List Dish :=
  (generateDishes kinds n).map processDishSeq

theorem sequentialRun_status (kinds : Nat → DType) (n : Nat) :
    (sequentialRun kinds n).map Dish.status = List.replicate n St.stored := by
  simp [sequentialRun, generateDishes, processDishSeq, store, dry, wash, pre_rinse,
    List.map_map, List.eq_replicate_iff]

theorem sequentialRun_hist (kinds : Nat → DType) (n : Nat) :
    ∀ d ∈ sequentialRun kinds n,
      d.hist = [St.dirty, St.prerinsed, St.washed, St.dried, St.stored] := by
  intro d hd
  simp only [sequentialRun, generateDishes, List.map_map, List.mem_map] at hd
  obtain ⟨i, _, rfl⟩ := hd
  rfl

/-! ## Metrics -/

/-- Python float division, which raises `ZeroDivisionError` on a zero
denominator; embedded over `ℚ` with `none` for the raised exception. -/
def fdiv (a b : ℚ) : Option ℚ :=
  if b = 0 then none else some (a / b)

@[simp] theorem fdiv_zero_right (a : ℚ) : fdiv a 0 = none := rfl

theorem fdiv_of_ne (a b : ℚ) (h : b ≠ 0) : fdiv a b = some (a / b) := by
  simp [fdiv, h]

/-- The metrics dictionary returned by both `process_sequential` and
`process_parallel`: keys `"execution_time"`, `"throughput"`,
`"avg_time_per_dish"`, `"dishes_processed"` (the spec's vocabulary renames
dish → item: `avg_time_per_item`, `items_processed`). -/
structure Metrics where
  execution_time : ℚ
  throughput : ℚ
  avg_time_per_dish : ℚ
  dishes_processed : Nat
deriving DecidableEq, Repr

/-- The metrics computation at the end of
`SequentialDishwasher.process_sequential`:
`throughput = num_dishes / elapsed_time` then
`avg_time_per_dish = elapsed_time / num_dishes`, with no guard on
`num_dishes = 0`. -/
def sequentialMetrics (elapsed : ℚ) (num_dishes : Nat) : Option Metrics :=
  match fdiv num_dishes elapsed with
  | none => none
  | some tp =>
    match fdiv elapsed num_dishes with
    | none => none
    | some avg =>
      some { execution_time := elapsed, throughput := tp,
             avg_time_per_dish := avg, dishes_processed := num_dishes }

/-- The metrics computation at the end of
`ParallelDishwasher.process_parallel`:
`throughput = dishes_completed / elapsed_time`;
`avg_time_per_dish = elapsed_time / dishes_completed if dishes_completed > 0
else 0` (guarded, cannot fault); then, before the return, the efficiency
display evaluates `(dishes_completed / self.num_dishes) * 100` with no
guard — a fourth division that faults when `num_dishes = 0`. -/
def parallelMetrics (elapsed : ℚ) (num_dishes dishes_completed : Nat) :
    Option Metrics :=
  match fdiv dishes_completed elapsed with
  | none => none
  | some tp =>
    match fdiv dishes_completed num_dishes with
    | none => none
    | some _ =>
      some { execution_time := elapsed, throughput := tp,
             avg_time_per_dish :=
               if 0 < dishes_completed then elapsed / dishes_completed else 0,
             dishes_processed := dishes_completed }

/-! ## Parallel strategy (`parallel_dishwashing.py`) — interleaving semantics

Each worker thread's loop body is split into its atomic effects on shared
state: `get` (dequeue from the input queue), `set` (the status assignment,
after the latency sleep), `put` (enqueue to the next queue, or append to
`completed_dishes` under `completion_lock` for the store worker), `done`
(`task_done()` on the input queue), and `exit` (the `while` condition
observing `stop_event` set).  The `Empty`-timeout branch (`continue`) does
not change state and is omitted as a stutter.  A worker may still complete a
`get` after `stop_event` is set (the loop condition was checked earlier),
so `get` is not guarded by the flag. -/

/-- Control state of one worker thread.  `gotDish d`: the dish was dequeued
(and the latency sleep happened); `setDone d`: its status was assigned;
`putDone d`: it was handed to the next queue / the sink, `task_done()` still
pending; `exited`: the `while` loop terminated. -/
inductive WState where
  | idle
  | gotDish (d : Dish)
  | setDone (d : Dish)
  | putDone (d : Dish)
  | exited
deriving DecidableEq, Repr

/-- Control state of the coordinator running `process_parallel`:
feeding `queue_1`, blocked in each of the four `join()` calls in order,
about to call `stop_event.set()`, joining the threads (bounded timeout),
and finished (metrics computed). -/
inductive CState where
  | feeding
  | drainQ1
  | drainQ2
  | drainQ3
  | drainQ4
  | setStop
  | joining
  | finished
deriving DecidableEq, Repr

/-- Linear position of the coordinator in `process_parallel`. -/
def coIdx : CState → Nat
  | .feeding => 0
  | .drainQ1 => 1
  | .drainQ2 => 2
  | .drainQ3 => 3
  | .drainQ4 => 4
  | .setStop => 5
  | .joining => 6
  | .finished => 7

/-- Global state of one `process_parallel` run: the four stage queues,
their ghost cumulative enqueue/dequeue/acknowledge counters (Python's
`unfinished_tasks` of `queue_i` is `enqi - acki`), the four worker control
states, the dishes not yet fed into `queue_1`, `completed_dishes`,
`stop_event`, and the coordinator position. -/
structure PState where
  toFeed : List Dish
  q1 : List Dish
  q2 : List Dish
  q3 : List Dish
  q4 : List Dish
  enq1 : Nat
  deq1 : Nat
  ack1 : Nat
  enq2 : Nat
  deq2 : Nat
  ack2 : Nat
  enq3 : Nat
  deq3 : Nat
  ack3 : Nat
  enq4 : Nat
  deq4 : Nat
  ack4 : Nat
  w1 : WState
  w2 : WState
  w3 : WState
  w4 : WState
  completed : List Dish
  stop : Bool
  co : CState

/-- The state right after `ParallelDishwasher.__init__` and thread start:
all dishes generated and waiting to be fed, queues empty, workers polling,
`stop_event` clear. -/
def initState (kinds : Nat → DType) (n : Nat) : PState where
  toFeed := generateDishes kinds n
  q1 := []
  q2 := []
  q3 := []
  q4 := []
  enq1 := 0
  deq1 := 0
  ack1 := 0
  enq2 := 0
  deq2 := 0
  ack2 := 0
  enq3 := 0
  deq3 := 0
  ack3 := 0
  enq4 := 0
  deq4 := 0
  ack4 := 0
  w1 := .idle
  w2 := .idle
  w3 := .idle
  w4 := .idle
  completed := []
  stop := false
  co := .feeding

/-- The dish a worker holds that is still upstream of its `put` (counted in
its input queue's `unfinished_tasks` and not yet visible downstream). -/
def holdL : WState → List Dish
  | .gotDish d => [d]
  | .setDone d => [d]
  | _ => []

/-- Number of dishes a worker has dequeued but not yet acknowledged with
`task_done()`. -/
def holdP : WState → Nat
  | .idle => 0
  | .exited => 0
  | _ => 1

/-- Every dish in the system, ordered from the oldest (head of
`completed_dishes`) back to the ones not yet fed: the pipeline chain. -/
def chainList (s : PState) : List Dish :=
  s.completed ++ holdL s.w4 ++ s.q4 ++ holdL s.w3 ++ s.q3 ++
    holdL s.w2 ++ s.q2 ++ holdL s.w1 ++ s.q1 ++ s.toFeed

/-- One atomic transition of the coordinator thread or one of the four
stage worker threads. -/
inductive Step : PState → PState → Prop
  /- Coordinator: `self.queue_1.put(dish)` for the next generated dish. -/
  | feed (s : PState) (d : Dish) (rest : List Dish) :
      s.co = .feeding → s.toFeed = d :: rest →
      Step s { s with toFeed := rest, q1 := s.q1 ++ [d], enq1 := s.enq1 + 1 }
  /- Coordinator: the feed loop ends; next statement is `queue_1.join()`. -/
  | feedDone (s : PState) :
      s.co = .feeding → s.toFeed = [] →
      Step s { s with co := .drainQ1 }
  /- Coordinator: `queue_1.join()` returns (its `unfinished_tasks` is 0). -/
  | drainA (s : PState) :
      s.co = .drainQ1 → s.enq1 - s.ack1 = 0 →
      Step s { s with co := .drainQ2 }
  /- Coordinator: `queue_2.join()` returns. -/
  | drainB (s : PState) :
      s.co = .drainQ2 → s.enq2 - s.ack2 = 0 →
      Step s { s with co := .drainQ3 }
  /- Coordinator: `queue_3.join()` returns. -/
  | drainC (s : PState) :
      s.co = .drainQ3 → s.enq3 - s.ack3 = 0 →
      Step s { s with co := .drainQ4 }
  /- Coordinator: `queue_4.join()` returns. -/
  | drainD (s : PState) :
      s.co = .drainQ4 → s.enq4 - s.ack4 = 0 →
      Step s { s with co := .setStop }
  /- Coordinator: `self.stop_event.set()`. -/
  | doStop (s : PState) :
      s.co = .setStop →
      Step s { s with stop := true, co := .joining }
  /- Coordinator: the four `thread.join(timeout=1.0)` calls return (with or
  without hitting the timeout — they never block forever). -/
  | doJoin (s : PState) :
      s.co = .joining →
      Step s { s with co := .finished }
  /- Stage-1 worker: `dish = self.queue_1.get(timeout=0.1)` succeeds. -/
  | getA (s : PState) (d : Dish) (rest : List Dish) :
      s.w1 = .idle → s.q1 = d :: rest →
      Step s { s with q1 := rest, deq1 := s.deq1 + 1, w1 := .gotDish d }
  /- Stage-1 worker: `dish.status = "pre-rinsed"` (after the sleep). -/
  | setA (s : PState) (d : Dish) :
      s.w1 = .gotDish d →
      Step s { s with w1 := .setDone (setStatus St.prerinsed d) }
  /- Stage-1 worker: `self.queue_2.put(dish)`. -/
  | putA (s : PState) (d : Dish) :
      s.w1 = .setDone d →
      Step s { s with w1 := .putDone d, q2 := s.q2 ++ [d], enq2 := s.enq2 + 1 }
  /- Stage-1 worker: `self.queue_1.task_done()`. -/
  | doneA (s : PState) (d : Dish) :
      s.w1 = .putDone d →
      Step s { s with w1 := .idle, ack1 := s.ack1 + 1 }
  /- Stage-1 worker: the `while not self.stop_event.is_set()` check fails. -/
  | exitA (s : PState) :
      s.w1 = .idle → s.stop = true →
      Step s { s with w1 := .exited }
  /- Stage-2 worker (wash), same shape. -/
  | getB (s : PState) (d : Dish) (rest : List Dish) :
      s.w2 = .idle → s.q2 = d :: rest →
      Step s { s with q2 := rest, deq2 := s.deq2 + 1, w2 := .gotDish d }
  | setB (s : PState) (d : Dish) :
      s.w2 = .gotDish d →
      Step s { s with w2 := .setDone (setStatus St.washed d) }
  | putB (s : PState) (d : Dish) :
      s.w2 = .setDone d →
      Step s { s with w2 := .putDone d, q3 := s.q3 ++ [d], enq3 := s.enq3 + 1 }
  | doneB (s : PState) (d : Dish) :
      s.w2 = .putDone d →
      Step s { s with w2 := .idle, ack2 := s.ack2 + 1 }
  | exitB (s : PState) :
      s.w2 = .idle → s.stop = true →
      Step s { s with w2 := .exited }
  /- Stage-3 worker (dry), same shape. -/
  | getC (s : PState) (d : Dish) (rest : List Dish) :
      s.w3 = .idle → s.q3 = d :: rest →
      Step s { s with q3 := rest, deq3 := s.deq3 + 1, w3 := .gotDish d }
  | setC (s : PState) (d : Dish) :
      s.w3 = .gotDish d →
      Step s { s with w3 := .setDone (setStatus St.dried d) }
  | putC (s : PState) (d : Dish) :
      s.w3 = .setDone d →
      Step s { s with w3 := .putDone d, q4 := s.q4 ++ [d], enq4 := s.enq4 + 1 }
  | doneC (s : PState) (d : Dish) :
      s.w3 = .putDone d →
      Step s { s with w3 := .idle, ack3 := s.ack3 + 1 }
  | exitC (s : PState) :
      s.w3 = .idle → s.stop = true →
      Step s { s with w3 := .exited }
  /- Stage-4 worker (store): the `put` appends to `completed_dishes` under
  `completion_lock` instead of feeding a fifth queue. -/
  | getD (s : PState) (d : Dish) (rest : List Dish) :
      s.w4 = .idle → s.q4 = d :: rest →
      Step s { s with q4 := rest, deq4 := s.deq4 + 1, w4 := .gotDish d }
  | setD (s : PState) (d : Dish) :
      s.w4 = .gotDish d →
      Step s { s with w4 := .setDone (setStatus St.stored d) }
  | putD (s : PState) (d : Dish) :
      s.w4 = .setDone d →
      Step s { s with w4 := .putDone d, completed := s.completed ++ [d] }
  | doneD (s : PState) (d : Dish) :
      s.w4 = .putDone d →
      Step s { s with w4 := .idle, ack4 := s.ack4 + 1 }
  | exitD (s : PState) :
      s.w4 = .idle → s.stop = true →
      Step s { s with w4 := .exited }

/-- Reachability from the start of a `process_parallel` run on `n` dishes
generated with type draws `kinds`. -/
inductive Reach (kinds : Nat → DType) (n : Nat) : PState → Prop
  | init : Reach kinds n (initState kinds n)
  | step {s s' : PState} : Reach kinds n s → Step s s' → Reach kinds n s'

/-! ## The inductive invariant of the pipeline -/

/-- The canonical life of a dish: the five status values in processing
order. -/
def fullHist : List St := [St.dirty, St.prerinsed, St.washed, St.dried, St.stored]

/-- Inductive invariant of a `process_parallel` run: conservation of dishes
along the pipeline chain, the counting discipline of each queue
(`unfinished_tasks = enq - ack`, buffer length `= enq - deq`, in-flight
`= deq - ack ∈ {0,1}`), what the coordinator position implies about drained
queues and the stop flag, and the status/history of a dish at each spot of
the pipeline. -/
structure Inv (kinds : Nat → DType) (n : Nat) (s : PState) : Prop where
  chain : (chainList s).map Dish.dish_id = (generateDishes kinds n).map Dish.dish_id
  lenq1 : s.enq1 = s.deq1 + s.q1.length
  lenq2 : s.enq2 = s.deq2 + s.q2.length
  lenq3 : s.enq3 = s.deq3 + s.q3.length
  lenq4 : s.enq4 = s.deq4 + s.q4.length
  flight1 : s.deq1 = s.ack1 + holdP s.w1
  flight2 : s.deq2 = s.ack2 + holdP s.w2
  flight3 : s.deq3 = s.ack3 + holdP s.w3
  flight4 : s.deq4 = s.ack4 + holdP s.w4
  cohA : 2 ≤ coIdx s.co → s.enq1 = s.ack1
  cohB : 3 ≤ coIdx s.co → s.enq2 = s.ack2
  cohC : 4 ≤ coIdx s.co → s.enq3 = s.ack3
  cohD : 5 ≤ coIdx s.co → s.enq4 = s.ack4
  feedPhase : s.co = .feeding ∨ s.toFeed = []
  hstop : s.stop = true ↔ 6 ≤ coIdx s.co
  histFeed : ∀ d ∈ s.toFeed, d.status = St.dirty ∧ d.hist = [St.dirty]
  histQ1 : ∀ d ∈ s.q1, d.status = St.dirty ∧ d.hist = [St.dirty]
  histW1g : ∀ d, s.w1 = .gotDish d → d.status = St.dirty ∧ d.hist = [St.dirty]
  histW1s : ∀ d, s.w1 = .setDone d →
    d.status = St.prerinsed ∧ d.hist = [St.dirty, St.prerinsed]
  histQ2 : ∀ d ∈ s.q2, d.status = St.prerinsed ∧ d.hist = [St.dirty, St.prerinsed]
  histW2g : ∀ d, s.w2 = .gotDish d →
    d.status = St.prerinsed ∧ d.hist = [St.dirty, St.prerinsed]
  histW2s : ∀ d, s.w2 = .setDone d →
    d.status = St.washed ∧ d.hist = [St.dirty, St.prerinsed, St.washed]
  histQ3 : ∀ d ∈ s.q3, d.status = St.washed ∧ d.hist = [St.dirty, St.prerinsed, St.washed]
  histW3g : ∀ d, s.w3 = .gotDish d →
    d.status = St.washed ∧ d.hist = [St.dirty, St.prerinsed, St.washed]
  histW3s : ∀ d, s.w3 = .setDone d →
    d.status = St.dried ∧ d.hist = [St.dirty, St.prerinsed, St.washed, St.dried]
  histQ4 : ∀ d ∈ s.q4, d.status = St.dried ∧
    d.hist = [St.dirty, St.prerinsed, St.washed, St.dried]
  histW4g : ∀ d, s.w4 = .gotDish d →
    d.status = St.dried ∧ d.hist = [St.dirty, St.prerinsed, St.washed, St.dried]
  histW4s : ∀ d, s.w4 = .setDone d → d.status = St.stored ∧ d.hist = fullHist
  histDone : ∀ d ∈ s.completed, d.status = St.stored ∧ d.hist = fullHist

theorem inv_init (kinds : Nat → DType) (n : Nat) : Inv kinds n (initState kinds n) where
  chain := by simp [chainList, initState, holdL]
  lenq1 := rfl
  lenq2 := rfl
  lenq3 := rfl
  lenq4 := rfl
  flight1 := rfl
  flight2 := rfl
  flight3 := rfl
  flight4 := rfl
  cohA := fun h => by simp [initState, coIdx] at h
  cohB := fun h => by simp [initState, coIdx] at h
  cohC := fun h => by simp [initState, coIdx] at h
  cohD := fun h => by simp [initState, coIdx] at h
  feedPhase := Or.inl rfl
  hstop := by simp [initState, coIdx]
  histFeed := by
    intro d hd
    simp only [initState, generateDishes, List.mem_map] at hd
    obtain ⟨i, _, rfl⟩ := hd
    exact ⟨rfl, rfl⟩
  histQ1 := by intro d hd; simp [initState] at hd
  histW1g := fun d h => by simp [initState] at h
  histW1s := fun d h => by simp [initState] at h
  histQ2 := by intro d hd; simp [initState] at hd
  histW2g := fun d h => by simp [initState] at h
  histW2s := fun d h => by simp [initState] at h
  histQ3 := by intro d hd; simp [initState] at hd
  histW3g := fun d h => by simp [initState] at h
  histW3s := fun d h => by simp [initState] at h
  histQ4 := by intro d hd; simp [initState] at hd
  histW4g := fun d h => by simp [initState] at h
  histW4s := fun d h => by simp [initState] at h
  histDone := by intro d hd; simp [initState] at hd

/-- The invariant is preserved by every interleaved step. -/
theorem step_inv {kinds : Nat → DType} {n : Nat} {s s' : PState}
    (hInv : Inv kinds n s) (hstep : Step s s') : Inv kinds n s' := by
  cases hstep with
  | feed d rest hco hf =>
      exact { hInv with
        chain := by simpa [chainList, hf, List.append_assoc] using hInv.chain
        lenq1 := by
          have h := hInv.lenq1
          show s.enq1 + 1 = s.deq1 + (s.q1 ++ [d]).length
          simp [List.length_append]; omega
        cohA := fun h => by simp [coIdx, hco] at h
        feedPhase := Or.inl hco
        histFeed := fun d' hd' =>
          hInv.histFeed d' (by rw [hf]; exact List.mem_cons_of_mem _ hd')
        histQ1 := by
          intro d' hd'
          rcases List.mem_append.mp hd' with h | h
          · exact hInv.histQ1 d' h
          · simp only [List.mem_singleton] at h
            subst h
            exact hInv.histFeed d' (by rw [hf]; exact List.mem_cons_self _ _) }
  | feedDone hco hf =>
      exact { hInv with
        cohA := fun h => by simp [coIdx] at h
        cohB := fun h => by simp [coIdx] at h
        cohC := fun h => by simp [coIdx] at h
        cohD := fun h => by simp [coIdx] at h
        feedPhase := Or.inr hf
        hstop := by simp [coIdx, hInv.hstop, hco] }
  | drainA hco hp =>
      exact { hInv with
        cohA := fun _ => by
          have h1 := hInv.lenq1
          have h2 := hInv.flight1
          show s.enq1 = s.ack1
          omega
        cohB := fun h => by simp [coIdx] at h
        cohC := fun h => by simp [coIdx] at h
        cohD := fun h => by simp [coIdx] at h
        feedPhase := Or.inr (hInv.feedPhase.resolve_left (by simp [hco]))
        hstop := by simp [coIdx, hInv.hstop, hco] }
  | drainB hco hp =>
      exact { hInv with
        cohA := fun _ => hInv.cohA (by simp [hco, coIdx])
        cohB := fun _ => by
          have h1 := hInv.lenq2
          have h2 := hInv.flight2
          show s.enq2 = s.ack2
          omega
        cohC := fun h => by simp [coIdx] at h
        cohD := fun h => by simp [coIdx] at h
        feedPhase := Or.inr (hInv.feedPhase.resolve_left (by simp [hco]))
        hstop := by simp [coIdx, hInv.hstop, hco] }
  | drainC hco hp =>
      exact { hInv with
        cohA := fun _ => hInv.cohA (by simp [hco, coIdx])
        cohB := fun _ => hInv.cohB (by simp [hco, coIdx])
        cohC := fun _ => by
          have h1 := hInv.lenq3
          have h2 := hInv.flight3
          show s.enq3 = s.ack3
          omega
        cohD := fun h => by simp [coIdx] at h
        feedPhase := Or.inr (hInv.feedPhase.resolve_left (by simp [hco]))
        hstop := by simp [coIdx, hInv.hstop, hco] }
  | drainD hco hp =>
      exact { hInv with
        cohA := fun _ => hInv.cohA (by simp [hco, coIdx])
        cohB := fun _ => hInv.cohB (by simp [hco, coIdx])
        cohC := fun _ => hInv.cohC (by simp [hco, coIdx])
        cohD := fun _ => by
          have h1 := hInv.lenq4
          have h2 := hInv.flight4
          show s.enq4 = s.ack4
          omega
        feedPhase := Or.inr (hInv.feedPhase.resolve_left (by simp [hco]))
        hstop := by simp [coIdx, hInv.hstop, hco] }
  | doStop hco =>
      exact { hInv with
        cohA := fun _ => hInv.cohA (by simp [hco, coIdx])
        cohB := fun _ => hInv.cohB (by simp [hco, coIdx])
        cohC := fun _ => hInv.cohC (by simp [hco, coIdx])
        cohD := fun _ => hInv.cohD (by simp [hco, coIdx])
        feedPhase := Or.inr (hInv.feedPhase.resolve_left (by simp [hco]))
        hstop := by simp [coIdx] }
  | doJoin hco =>
      exact { hInv with
        cohA := fun _ => hInv.cohA (by simp [hco, coIdx])
        cohB := fun _ => hInv.cohB (by simp [hco, coIdx])
        cohC := fun _ => hInv.cohC (by simp [hco, coIdx])
        cohD := fun _ => hInv.cohD (by simp [hco, coIdx])
        feedPhase := Or.inr (hInv.feedPhase.resolve_left (by simp [hco]))
        hstop := ⟨fun _ => by simp [coIdx], fun _ => hInv.hstop.mpr (by simp [hco, coIdx])⟩ }
  | getA d rest hw hq =>
      exact { hInv with
        chain := by simpa [chainList, holdL, hw, hq, List.append_assoc] using hInv.chain
        lenq1 := by
          have h := hInv.lenq1
          rw [hq] at h
          show s.enq1 = (s.deq1 + 1) + rest.length
          simp only [List.length_cons] at h
          omega
        flight1 := by
          have h := hInv.flight1
          rw [hw] at h
          show s.deq1 + 1 = s.ack1 + holdP (.gotDish d)
          simp [holdP] at h ⊢
          omega
        histQ1 := fun d' hd' =>
          hInv.histQ1 d' (by rw [hq]; exact List.mem_cons_of_mem _ hd')
        histW1g := fun d' h => by
          injection h with h'
          subst h'
          exact hInv.histQ1 _ (by rw [hq]; exact List.mem_cons_self _ _)
        histW1s := fun d' h => by simp at h }
  | setA d hw =>
      exact { hInv with
        chain := by simpa [chainList, holdL, hw, List.append_assoc] using hInv.chain
        flight1 := by
          have h := hInv.flight1
          rw [hw] at h
          show s.deq1 = s.ack1 + holdP (.setDone (setStatus St.prerinsed d))
          simpa [holdP] using h
        histW1g := fun d' h => by simp at h
        histW1s := fun d' h => by
          injection h with h'
          subst h'
          have hg := hInv.histW1g d hw
          exact ⟨by simp, by simp [hg.2]⟩ }
  | putA d hw =>
      exact { hInv with
        chain := by simpa [chainList, holdL, hw, List.append_assoc] using hInv.chain
        lenq2 := by
          have h := hInv.lenq2
          show s.enq2 + 1 = s.deq2 + (s.q2 ++ [d]).length
          simp [List.length_append]; omega
        flight1 := by
          have h := hInv.flight1
          rw [hw] at h
          show s.deq1 = s.ack1 + holdP (.putDone d)
          simpa [holdP] using h
        cohB := fun h => by
          have hh : 3 ≤ coIdx s.co := h
          have h1 := hInv.cohA (by omega)
          have h2 := hInv.flight1
          have h3 := hInv.lenq1
          rw [hw] at h2
          simp [holdP] at h2
          show s.enq2 + 1 = s.ack2
          omega
        histQ2 := by
          intro d' hd'
          rcases List.mem_append.mp hd' with h | h
          · exact hInv.histQ2 d' h
          · simp only [List.mem_singleton] at h
            subst h
            exact hInv.histW1s _ hw
        histW1g := fun d' h => by simp at h
        histW1s := fun d' h => by simp at h }
  | doneA d hw =>
      exact { hInv with
        chain := by simpa [chainList, holdL, hw] using hInv.chain
        flight1 := by
          have h := hInv.flight1
          rw [hw] at h
          show s.deq1 = (s.ack1 + 1) + holdP .idle
          simp [holdP] at h ⊢
          omega
        cohA := fun h => by
          have h1 := hInv.cohA h
          have h2 := hInv.flight1
          have h3 := hInv.lenq1
          rw [hw] at h2
          simp [holdP] at h2
          show s.enq1 = s.ack1 + 1
          omega
        histW1g := fun d' h => by simp at h
        histW1s := fun d' h => by simp at h }
  | exitA hw hs =>
      exact { hInv with
        chain := by simpa [chainList, holdL, hw] using hInv.chain
        flight1 := by
          have h := hInv.flight1
          rw [hw] at h
          show s.deq1 = s.ack1 + holdP .exited
          simpa [holdP] using h
        histW1g := fun d' h => by simp at h
        histW1s := fun d' h => by simp at h }
  | getB d rest hw hq =>
      exact { hInv with
        chain := by simpa [chainList, holdL, hw, hq, List.append_assoc] using hInv.chain
        lenq2 := by
          have h := hInv.lenq2
          rw [hq] at h
          show s.enq2 = (s.deq2 + 1) + rest.length
          simp only [List.length_cons] at h
          omega
        flight2 := by
          have h := hInv.flight2
          rw [hw] at h
          show s.deq2 + 1 = s.ack2 + holdP (.gotDish d)
          simp [holdP] at h ⊢
          omega
        histQ2 := fun d' hd' =>
          hInv.histQ2 d' (by rw [hq]; exact List.mem_cons_of_mem _ hd')
        histW2g := fun d' h => by
          injection h with h'
          subst h'
          exact hInv.histQ2 _ (by rw [hq]; exact List.mem_cons_self _ _)
        histW2s := fun d' h => by simp at h }
  | setB d hw =>
      exact { hInv with
        chain := by simpa [chainList, holdL, hw, List.append_assoc] using hInv.chain
        flight2 := by
          have h := hInv.flight2
          rw [hw] at h
          show s.deq2 = s.ack2 + holdP (.setDone (setStatus St.washed d))
          simpa [holdP] using h
        histW2g := fun d' h => by simp at h
        histW2s := fun d' h => by
          injection h with h'
          subst h'
          have hg := hInv.histW2g d hw
          exact ⟨by simp, by simp [hg.2]⟩ }
  | putB d hw =>
      exact { hInv with
        chain := by simpa [chainList, holdL, hw, List.append_assoc] using hInv.chain
        lenq3 := by
          have h := hInv.lenq3
          show s.enq3 + 1 = s.deq3 + (s.q3 ++ [d]).length
          simp [List.length_append]; omega
        flight2 := by
          have h := hInv.flight2
          rw [hw] at h
          show s.deq2 = s.ack2 + holdP (.putDone d)
          simpa [holdP] using h
        cohC := fun h => by
          have hh : 4 ≤ coIdx s.co := h
          have h1 := hInv.cohB (by omega)
          have h2 := hInv.flight2
          have h3 := hInv.lenq2
          rw [hw] at h2
          simp [holdP] at h2
          show s.enq3 + 1 = s.ack3
          omega
        histQ3 := by
          intro d' hd'
          rcases List.mem_append.mp hd' with h | h
          · exact hInv.histQ3 d' h
          · simp only [List.mem_singleton] at h
            subst h
            exact hInv.histW2s _ hw
        histW2g := fun d' h => by simp at h
        histW2s := fun d' h => by simp at h }
  | doneB d hw =>
      exact { hInv with
        chain := by simpa [chainList, holdL, hw] using hInv.chain
        flight2 := by
          have h := hInv.flight2
          rw [hw] at h
          show s.deq2 = (s.ack2 + 1) + holdP .idle
          simp [holdP] at h ⊢
          omega
        cohB := fun h => by
          have h1 := hInv.cohB h
          have h2 := hInv.flight2
          have h3 := hInv.lenq2
          rw [hw] at h2
          simp [holdP] at h2
          show s.enq2 = s.ack2 + 1
          omega
        histW2g := fun d' h => by simp at h
        histW2s := fun d' h => by simp at h }
  | exitB hw hs =>
      exact { hInv with
        chain := by simpa [chainList, holdL, hw] using hInv.chain
        flight2 := by
          have h := hInv.flight2
          rw [hw] at h
          show s.deq2 = s.ack2 + holdP .exited
          simpa [holdP] using h
        histW2g := fun d' h => by simp at h
        histW2s := fun d' h => by simp at h }
  | getC d rest hw hq =>
      exact { hInv with
        chain := by simpa [chainList, holdL, hw, hq, List.append_assoc] using hInv.chain
        lenq3 := by
          have h := hInv.lenq3
          rw [hq] at h
          show s.enq3 = (s.deq3 + 1) + rest.length
          simp only [List.length_cons] at h
          omega
        flight3 := by
          have h := hInv.flight3
          rw [hw] at h
          show s.deq3 + 1 = s.ack3 + holdP (.gotDish d)
          simp [holdP] at h ⊢
          omega
        histQ3 := fun d' hd' =>
          hInv.histQ3 d' (by rw [hq]; exact List.mem_cons_of_mem _ hd')
        histW3g := fun d' h => by
          injection h with h'
          subst h'
          exact hInv.histQ3 _ (by rw [hq]; exact List.mem_cons_self _ _)
        histW3s := fun d' h => by simp at h }
  | setC d hw =>
      exact { hInv with
        chain := by simpa [chainList, holdL, hw, List.append_assoc] using hInv.chain
        flight3 := by
          have h := hInv.flight3
          rw [hw] at h
          show s.deq3 = s.ack3 + holdP (.setDone (setStatus St.dried d))
          simpa [holdP] using h
        histW3g := fun d' h => by simp at h
        histW3s := fun d' h => by
          injection h with h'
          subst h'
          have hg := hInv.histW3g d hw
          exact ⟨by simp, by simp [hg.2]⟩ }
  | putC d hw =>
      exact { hInv with
        chain := by simpa [chainList, holdL, hw, List.append_assoc] using hInv.chain
        lenq4 := by
          have h := hInv.lenq4
          show s.enq4 + 1 = s.deq4 + (s.q4 ++ [d]).length
          simp [List.length_append]; omega
        flight3 := by
          have h := hInv.flight3
          rw [hw] at h
          show s.deq3 = s.ack3 + holdP (.putDone d)
          simpa [holdP] using h
        cohD := fun h => by
          have hh : 5 ≤ coIdx s.co := h
          have h1 := hInv.cohC (by omega)
          have h2 := hInv.flight3
          have h3 := hInv.lenq3
          rw [hw] at h2
          simp [holdP] at h2
          show s.enq4 + 1 = s.ack4
          omega
        histQ4 := by
          intro d' hd'
          rcases List.mem_append.mp hd' with h | h
          · exact hInv.histQ4 d' h
          · simp only [List.mem_singleton] at h
            subst h
            exact hInv.histW3s _ hw
        histW3g := fun d' h => by simp at h
        histW3s := fun d' h => by simp at h }
  | doneC d hw =>
      exact { hInv with
        chain := by simpa [chainList, holdL, hw] using hInv.chain
        flight3 := by
          have h := hInv.flight3
          rw [hw] at h
          show s.deq3 = (s.ack3 + 1) + holdP .idle
          simp [holdP] at h ⊢
          omega
        cohC := fun h => by
          have h1 := hInv.cohC h
          have h2 := hInv.flight3
          have h3 := hInv.lenq3
          rw [hw] at h2
          simp [holdP] at h2
          show s.enq3 = s.ack3 + 1
          omega
        histW3g := fun d' h => by simp at h
        histW3s := fun d' h => by simp at h }
  | exitC hw hs =>
      exact { hInv with
        chain := by simpa [chainList, holdL, hw] using hInv.chain
        flight3 := by
          have h := hInv.flight3
          rw [hw] at h
          show s.deq3 = s.ack3 + holdP .exited
          simpa [holdP] using h
        histW3g := fun d' h => by simp at h
        histW3s := fun d' h => by simp at h }
  | getD d rest hw hq =>
      exact { hInv with
        chain := by simpa [chainList, holdL, hw, hq, List.append_assoc] using hInv.chain
        lenq4 := by
          have h := hInv.lenq4
          rw [hq] at h
          show s.enq4 = (s.deq4 + 1) + rest.length
          simp only [List.length_cons] at h
          omega
        flight4 := by
          have h := hInv.flight4
          rw [hw] at h
          show s.deq4 + 1 = s.ack4 + holdP (.gotDish d)
          simp [holdP] at h ⊢
          omega
        histQ4 := fun d' hd' =>
          hInv.histQ4 d' (by rw [hq]; exact List.mem_cons_of_mem _ hd')
        histW4g := fun d' h => by
          injection h with h'
          subst h'
          exact hInv.histQ4 _ (by rw [hq]; exact List.mem_cons_self _ _)
        histW4s := fun d' h => by simp at h }
  | setD d hw =>
      exact { hInv with
        chain := by simpa [chainList, holdL, hw, List.append_assoc] using hInv.chain
        flight4 := by
          have h := hInv.flight4
          rw [hw] at h
          show s.deq4 = s.ack4 + holdP (.setDone (setStatus St.stored d))
          simpa [holdP] using h
        histW4g := fun d' h => by simp at h
        histW4s := fun d' h => by
          injection h with h'
          subst h'
          have hg := hInv.histW4g d hw
          exact ⟨by simp, by simp [fullHist, hg.2]⟩ }
  | putD d hw =>
      exact { hInv with
        chain := by simpa [chainList, holdL, hw, List.append_assoc] using hInv.chain
        flight4 := by
          have h := hInv.flight4
          rw [hw] at h
          show s.deq4 = s.ack4 + holdP (.putDone d)
          simpa [holdP] using h
        histDone := by
          intro d' hd'
          rcases List.mem_append.mp hd' with h | h
          · exact hInv.histDone d' h
          · simp only [List.mem_singleton] at h
            subst h
            exact hInv.histW4s _ hw
        histW4g := fun d' h => by simp at h
        histW4s := fun d' h => by simp at h }
  | doneD d hw =>
      exact { hInv with
        chain := by simpa [chainList, holdL, hw] using hInv.chain
        flight4 := by
          have h := hInv.flight4
          rw [hw] at h
          show s.deq4 = (s.ack4 + 1) + holdP .idle
          simp [holdP] at h ⊢
          omega
        cohD := fun h => by
          have h1 := hInv.cohD h
          have h2 := hInv.flight4
          have h3 := hInv.lenq4
          rw [hw] at h2
          simp [holdP] at h2
          show s.enq4 = s.ack4 + 1
          omega
        histW4g := fun d' h => by simp at h
        histW4s := fun d' h => by simp at h }
  | exitD hw hs =>
      exact { hInv with
        chain := by simpa [chainList, holdL, hw] using hInv.chain
        flight4 := by
          have h := hInv.flight4
          rw [hw] at h
          show s.deq4 = s.ack4 + holdP .exited
          simpa [holdP] using h
        histW4g := fun d' h => by simp at h
        histW4s := fun d' h => by simp at h }

/-- Every reachable state satisfies the invariant. -/
theorem reach_inv {kinds : Nat → DType} {n : Nat} {s : PState}
    (h : Reach kinds n s) : Inv kinds n s := by
  induction h with
  | init => exact inv_init kinds n
  | step _ hstep ih => exact step_inv ih hstep

/-! ## Consequences of the invariant -/

theorem holdL_of_holdP_zero (w : WState) (h : holdP w = 0) : holdL w = [] := by
  cases w <;> simp_all [holdP, holdL]

theorem mem_holdL {w : WState} {d : Dish} (h : d ∈ holdL w) :
    w = .gotDish d ∨ w = .setDone d := by
  cases w with
  | gotDish d' => simp only [holdL, List.mem_singleton] at h; subst h; exact Or.inl rfl
  | setDone d' => simp only [holdL, List.mem_singleton] at h; subst h; exact Or.inr rfl
  | idle => simp [holdL] at h
  | putDone d' => simp [holdL] at h
  | exited => simp [holdL] at h

/-- Once `queue_1.join()` has returned, the feed is over, `queue_1` is empty
and its worker holds nothing unacknowledged. -/
theorem drained1 {kinds : Nat → DType} {n : Nat} {s : PState}
    (hInv : Inv kinds n s) (h : 2 ≤ coIdx s.co) :
    s.q1 = [] ∧ holdL s.w1 = [] ∧ s.toFeed = [] := by
  have h1 := hInv.cohA h
  have h2 := hInv.lenq1
  have h3 := hInv.flight1
  have hq : s.q1.length = 0 := by omega
  have hp : holdP s.w1 = 0 := by omega
  refine ⟨List.length_eq_zero.mp hq, holdL_of_holdP_zero _ hp, ?_⟩
  rcases hInv.feedPhase with hf | hf
  · rw [hf] at h; simp [coIdx] at h
  · exact hf

theorem drained2 {kinds : Nat → DType} {n : Nat} {s : PState}
    (hInv : Inv kinds n s) (h : 3 ≤ coIdx s.co) :
    s.q2 = [] ∧ holdL s.w2 = [] := by
  have h1 := hInv.cohB h
  have h2 := hInv.lenq2
  have h3 := hInv.flight2
  have hq : s.q2.length = 0 := by omega
  have hp : holdP s.w2 = 0 := by omega
  exact ⟨List.length_eq_zero.mp hq, holdL_of_holdP_zero _ hp⟩

theorem drained3 {kinds : Nat → DType} {n : Nat} {s : PState}
    (hInv : Inv kinds n s) (h : 4 ≤ coIdx s.co) :
    s.q3 = [] ∧ holdL s.w3 = [] := by
  have h1 := hInv.cohC h
  have h2 := hInv.lenq3
  have h3 := hInv.flight3
  have hq : s.q3.length = 0 := by omega
  have hp : holdP s.w3 = 0 := by omega
  exact ⟨List.length_eq_zero.mp hq, holdL_of_holdP_zero _ hp⟩

theorem drained4 {kinds : Nat → DType} {n : Nat} {s : PState}
    (hInv : Inv kinds n s) (h : 5 ≤ coIdx s.co) :
    s.q4 = [] ∧ holdL s.w4 = [] := by
  have h1 := hInv.cohD h
  have h2 := hInv.lenq4
  have h3 := hInv.flight4
  have hq : s.q4.length = 0 := by omega
  have hp : holdP s.w4 = 0 := by omega
  exact ⟨List.length_eq_zero.mp hq, holdL_of_holdP_zero _ hp⟩

/-- After `queue_1.join()` returns, every generated dish is at or beyond
stage 2 of the pipeline: the part of the chain from `completed_dishes` back
to `queue_2` carries exactly the generated ids. -/
theorem downstream1_eq {kinds : Nat → DType} {n : Nat} {s : PState}
    (hInv : Inv kinds n s) (h : 2 ≤ coIdx s.co) :
    (s.completed ++ holdL s.w4 ++ s.q4 ++ holdL s.w3 ++ s.q3 ++
      holdL s.w2 ++ s.q2).map Dish.dish_id
      = (generateDishes kinds n).map Dish.dish_id := by
  obtain ⟨hq, hh, hf⟩ := drained1 hInv h
  have hc := hInv.chain
  simpa [chainList, hq, hh, hf] using hc

theorem downstream2_eq {kinds : Nat → DType} {n : Nat} {s : PState}
    (hInv : Inv kinds n s) (h : 3 ≤ coIdx s.co) :
    (s.completed ++ holdL s.w4 ++ s.q4 ++ holdL s.w3 ++ s.q3).map Dish.dish_id
      = (generateDishes kinds n).map Dish.dish_id := by
  obtain ⟨hq, hh, hf⟩ := drained1 hInv (by omega)
  obtain ⟨hq2, hh2⟩ := drained2 hInv h
  have hc := hInv.chain
  simpa [chainList, hq, hh, hf, hq2, hh2] using hc

theorem downstream3_eq {kinds : Nat → DType} {n : Nat} {s : PState}
    (hInv : Inv kinds n s) (h : 4 ≤ coIdx s.co) :
    (s.completed ++ holdL s.w4 ++ s.q4).map Dish.dish_id
      = (generateDishes kinds n).map Dish.dish_id := by
  obtain ⟨hq, hh, hf⟩ := drained1 hInv (by omega)
  obtain ⟨hq2, hh2⟩ := drained2 hInv (by omega)
  obtain ⟨hq3, hh3⟩ := drained3 hInv h
  have hc := hInv.chain
  simpa [chainList, hq, hh, hf, hq2, hh2, hq3, hh3] using hc

/-- After all four `join()` calls have returned, `completed_dishes` carries
exactly the generated ids in generation order. -/
theorem completed_eq {kinds : Nat → DType} {n : Nat} {s : PState}
    (hInv : Inv kinds n s) (h : 5 ≤ coIdx s.co) :
    s.completed.map Dish.dish_id = (generateDishes kinds n).map Dish.dish_id := by
  obtain ⟨hq, hh, hf⟩ := drained1 hInv (by omega)
  obtain ⟨hq2, hh2⟩ := drained2 hInv (by omega)
  obtain ⟨hq3, hh3⟩ := drained3 hInv (by omega)
  obtain ⟨hq4, hh4⟩ := drained4 hInv h
  have hc := hInv.chain
  simpa [chainList, hq, hh, hf, hq2, hh2, hq3, hh3, hq4, hh4] using hc

/-- Once `stop_event` is set, every queue is empty and fully acknowledged. -/
theorem stop_queues_empty {kinds : Nat → DType} {n : Nat} {s : PState}
    (hInv : Inv kinds n s) :
    s.stop = true →
      (s.q1 = [] ∧ s.enq1 - s.ack1 = 0) ∧ (s.q2 = [] ∧ s.enq2 - s.ack2 = 0) ∧
      (s.q3 = [] ∧ s.enq3 - s.ack3 = 0) ∧ (s.q4 = [] ∧ s.enq4 - s.ack4 = 0) := by
  intro hs
  have h6 := hInv.hstop.mp hs
  have c1 := hInv.cohA (by omega)
  have c2 := hInv.cohB (by omega)
  have c3 := hInv.cohC (by omega)
  have c4 := hInv.cohD (by omega)
  obtain ⟨e1, _, _⟩ := drained1 hInv (by omega)
  obtain ⟨e2, _⟩ := drained2 hInv (by omega)
  obtain ⟨e3, _⟩ := drained3 hInv (by omega)
  obtain ⟨e4, _⟩ := drained4 hInv (by omega)
  exact ⟨⟨e1, by omega⟩, ⟨e2, by omega⟩, ⟨e3, by omega⟩, ⟨e4, by omega⟩⟩

/-! ## Concrete executions (used to instantiate the theorems) -/

/-- A fixed type-draw stream: every draw yields a plate. -/
def kindsP : Nat → DType := fun _ => DType.plate

/-- Final state of the run on zero dishes: the coordinator walks through
feed, the four drains, stop and join without any worker action. -/
def runState0 : PState :=
  { initState kindsP 0 with stop := true, co := .finished }

theorem reach0 : Reach kindsP 0 runState0 := by
  have h0 : Reach kindsP 0 (initState kindsP 0) := Reach.init
  have h1 := Reach.step h0 (Step.feedDone _ rfl rfl)
  have h2 := Reach.step h1 (Step.drainA _ rfl rfl)
  have h3 := Reach.step h2 (Step.drainB _ rfl rfl)
  have h4 := Reach.step h3 (Step.drainC _ rfl rfl)
  have h5 := Reach.step h4 (Step.drainD _ rfl rfl)
  have h6 := Reach.step h5 (Step.doStop _ rfl)
  exact Reach.step h6 (Step.doJoin _ rfl)

/-- The single dish of the one-dish run, as generated. -/
def dish1 : Dish :=
  { dish_id := 1, dish_type := DType.plate, status := St.dirty, hist := [St.dirty] }

/-- The same dish once fully processed. -/
def dishDone : Dish :=
  { dish_id := 1, dish_type := DType.plate, status := St.stored, hist := fullHist }

/-- Final state of a complete run on one dish. -/
def runState1 : PState where
  toFeed := []
  q1 := []
  q2 := []
  q3 := []
  q4 := []
  enq1 := 1
  deq1 := 1
  ack1 := 1
  enq2 := 1
  deq2 := 1
  ack2 := 1
  enq3 := 1
  deq3 := 1
  ack3 := 1
  enq4 := 1
  deq4 := 1
  ack4 := 1
  w1 := .idle
  w2 := .idle
  w3 := .idle
  w4 := .idle
  completed := [dishDone]
  stop := true
  co := .finished

theorem reach1 : Reach kindsP 1 runState1 := by
  have h0 : Reach kindsP 1 (initState kindsP 1) := Reach.init
  have h1 := Reach.step h0 (Step.feed _ dish1 [] rfl rfl)
  have h2 := Reach.step h1 (Step.getA _ dish1 [] rfl rfl)
  have h3 := Reach.step h2 (Step.setA _ dish1 rfl)
  have h4 := Reach.step h3 (Step.putA _ (setStatus St.prerinsed dish1) rfl)
  have h5 := Reach.step h4 (Step.doneA _ (setStatus St.prerinsed dish1) rfl)
  have h6 := Reach.step h5 (Step.getB _ (setStatus St.prerinsed dish1) [] rfl rfl)
  have h7 := Reach.step h6 (Step.setB _ (setStatus St.prerinsed dish1) rfl)
  have h8 := Reach.step h7
    (Step.putB _ (setStatus St.washed (setStatus St.prerinsed dish1)) rfl)
  have h9 := Reach.step h8
    (Step.doneB _ (setStatus St.washed (setStatus St.prerinsed dish1)) rfl)
  have h10 := Reach.step h9
    (Step.getC _ (setStatus St.washed (setStatus St.prerinsed dish1)) [] rfl rfl)
  have h11 := Reach.step h10
    (Step.setC _ (setStatus St.washed (setStatus St.prerinsed dish1)) rfl)
  have h12 := Reach.step h11
    (Step.putC _ (setStatus St.dried (setStatus St.washed (setStatus St.prerinsed dish1))) rfl)
  have h13 := Reach.step h12
    (Step.doneC _ (setStatus St.dried (setStatus St.washed (setStatus St.prerinsed dish1))) rfl)
  have h14 := Reach.step h13
    (Step.getD _ (setStatus St.dried (setStatus St.washed (setStatus St.prerinsed dish1))) [] rfl rfl)
  have h15 := Reach.step h14
    (Step.setD _ (setStatus St.dried (setStatus St.washed (setStatus St.prerinsed dish1))) rfl)
  have h16 := Reach.step h15
    (Step.putD _ (setStatus St.stored (setStatus St.dried (setStatus St.washed (setStatus St.prerinsed dish1)))) rfl)
  have h17 := Reach.step h16
    (Step.doneD _ (setStatus St.stored (setStatus St.dried (setStatus St.washed (setStatus St.prerinsed dish1)))) rfl)
  have h18 := Reach.step h17 (Step.feedDone _ rfl rfl)
  have h19 := Reach.step h18 (Step.drainA _ rfl rfl)
  have h20 := Reach.step h19 (Step.drainB _ rfl rfl)
  have h21 := Reach.step h20 (Step.drainC _ rfl rfl)
  have h22 := Reach.step h21 (Step.drainD _ rfl rfl)
  have h23 := Reach.step h22 (Step.doStop _ rfl)
  exact Reach.step h23 (Step.doJoin _ rfl)

/-! ## Claim theorems -/

/-- C1: in every run of the concurrent pipeline on `n` input dishes, when the
run completes (`process_parallel` reaches its metrics computation) every
completed dish's final status is `"stored"`, and `completed_dishes` has size
`n` with no dish lost or duplicated (its ids are exactly the `n` generated
ids, without repetition). -/
theorem pipeline_no_loss {kinds : Nat → DType} {n : Nat} {s : PState}
    (h : Reach kinds n s) (hf : s.co = .finished) :
    s.completed.length = n ∧ (∀ d ∈ s.completed, d.status = St.stored) ∧
      (s.completed.map Dish.dish_id).Nodup := by
  have hInv := reach_inv h
  have hc := completed_eq hInv (by rw [hf]; simp [coIdx])
  refine ⟨?_, fun d hd => (hInv.histDone d hd).1, ?_⟩
  · have hl := congrArg List.length hc
    simpa using hl
  · rw [hc]
    exact nodup_ids_generateDishes kinds n

theorem pipeline_no_loss_witness :
    runState1.completed.length = 1 ∧
      (∀ d ∈ runState1.completed, d.status = St.stored) ∧
      (runState1.completed.map Dish.dish_id).Nodup :=
  pipeline_no_loss reach1 rfl

/-- C2: every dish starts at `"dirty"` at creation, and its recorded status
history is at every reachable state a nonempty prefix of
`dirty, pre-rinsed, washed, dried, stored` — the status advances strictly
forward through exactly these five values, never skipping or repeating a
stage — and on completion the history is exactly the full five-stage
sequence. -/
theorem status_forward_machine {kinds : Nat → DType} {n : Nat} {s : PState}
    (h : Reach kinds n s) :
    (∀ d ∈ generateDishes kinds n, d.status = St.dirty ∧ d.hist = [St.dirty]) ∧
    (∀ d ∈ chainList s, ∃ k, 1 ≤ k ∧ k ≤ 5 ∧ d.hist = fullHist.take k) ∧
    (s.co = .finished → ∀ d ∈ s.completed, d.hist = fullHist) := by
  have hInv := reach_inv h
  refine ⟨?_, ?_, ?_⟩
  · intro d hd
    simp only [generateDishes, List.mem_map] at hd
    obtain ⟨i, _, rfl⟩ := hd
    exact ⟨rfl, rfl⟩
  · intro d hd
    simp only [chainList, List.append_assoc, List.mem_append] at hd
    rcases hd with hd | hd | hd | hd | hd | hd | hd | hd | hd | hd
    · exact ⟨5, by omega, by omega, by rw [(hInv.histDone d hd).2]; rfl⟩
    · rcases mem_holdL hd with hw | hw
      · exact ⟨4, by omega, by omega, by rw [(hInv.histW4g d hw).2]; rfl⟩
      · exact ⟨5, by omega, by omega, by rw [(hInv.histW4s d hw).2]; rfl⟩
    · exact ⟨4, by omega, by omega, by rw [(hInv.histQ4 d hd).2]; rfl⟩
    · rcases mem_holdL hd with hw | hw
      · exact ⟨3, by omega, by omega, by rw [(hInv.histW3g d hw).2]; rfl⟩
      · exact ⟨4, by omega, by omega, by rw [(hInv.histW3s d hw).2]; rfl⟩
    · exact ⟨3, by omega, by omega, by rw [(hInv.histQ3 d hd).2]; rfl⟩
    · rcases mem_holdL hd with hw | hw
      · exact ⟨2, by omega, by omega, by rw [(hInv.histW2g d hw).2]; rfl⟩
      · exact ⟨3, by omega, by omega, by rw [(hInv.histW2s d hw).2]; rfl⟩
    · exact ⟨2, by omega, by omega, by rw [(hInv.histQ2 d hd).2]; rfl⟩
    · rcases mem_holdL hd with hw | hw
      · exact ⟨1, by omega, by omega, by rw [(hInv.histW1g d hw).2]; rfl⟩
      · exact ⟨2, by omega, by omega, by rw [(hInv.histW1s d hw).2]; rfl⟩
    · exact ⟨1, by omega, by omega, by rw [(hInv.histQ1 d hd).2]; rfl⟩
    · exact ⟨1, by omega, by omega, by rw [(hInv.histFeed d hd).2]; rfl⟩
  · intro _ d hd
    exact (hInv.histDone d hd).2

theorem status_forward_machine_witness :
    (∀ d ∈ generateDishes kindsP 1, d.status = St.dirty ∧ d.hist = [St.dirty]) ∧
    (∀ d ∈ chainList runState1, ∃ k, 1 ≤ k ∧ k ≤ 5 ∧ d.hist = fullHist.take k) ∧
    (runState1.co = .finished → ∀ d ∈ runState1.completed, d.hist = fullHist) :=
  status_forward_machine reach1

/-- C3: the coordinator's position in `process_parallel` never moves
backwards; the stop flag is set only by the step leaving `setStop`, which is
reachable only after the four `join()` calls returned in queue order
(1, 2, 3, 4, each step requiring its queue's `unfinished_tasks` to be 0);
at `setStop` all four queues are fully acknowledged; and the thread joins
(bounded timeout) always complete, leading to `finished`. -/
theorem coordinator_drain_protocol {kinds : Nat → DType} {n : Nat} {s : PState}
    (h : Reach kinds n s) :
    (∀ s', Step s s' → coIdx s.co ≤ coIdx s'.co) ∧
    (∀ s', Step s s' → s.stop = false → s'.stop = true → s.co = .setStop) ∧
    (s.co = .setStop →
      s.enq1 = s.ack1 ∧ s.enq2 = s.ack2 ∧ s.enq3 = s.ack3 ∧ s.enq4 = s.ack4) ∧
    (s.stop = true ↔ 6 ≤ coIdx s.co) ∧
    (∀ s', Step s s' → s.co ≠ .drainQ2 → s'.co = .drainQ2 →
      s.co = .drainQ1 ∧ s.enq1 - s.ack1 = 0) ∧
    (∀ s', Step s s' → s.co ≠ .drainQ3 → s'.co = .drainQ3 →
      s.co = .drainQ2 ∧ s.enq2 - s.ack2 = 0) ∧
    (∀ s', Step s s' → s.co ≠ .drainQ4 → s'.co = .drainQ4 →
      s.co = .drainQ3 ∧ s.enq3 - s.ack3 = 0) ∧
    (∀ s', Step s s' → s.co ≠ .setStop → s'.co = .setStop →
      s.co = .drainQ4 ∧ s.enq4 - s.ack4 = 0) ∧
    (s.co = .joining → ∃ u, Step s u ∧ u.co = .finished) := by
  have hInv := reach_inv h
  refine ⟨?_, ?_, ?_, hInv.hstop, ?_, ?_, ?_, ?_, ?_⟩
  · intro s' hs; cases hs <;> simp_all [coIdx]
  · intro s' hs h0 h1; cases hs <;> simp_all
  · intro hc
    have h5 : coIdx s.co = 5 := by rw [hc]; rfl
    exact ⟨hInv.cohA (by omega), hInv.cohB (by omega),
      hInv.cohC (by omega), hInv.cohD (by omega)⟩
  · intro s' hs hne he; cases hs <;> simp_all
  · intro s' hs hne he; cases hs <;> simp_all
  · intro s' hs hne he; cases hs <;> simp_all
  · intro s' hs hne he; cases hs <;> simp_all
  · intro hj
    exact ⟨_, Step.doJoin s hj, rfl⟩

theorem coordinator_drain_protocol_witness :
    (∀ s', Step runState0 s' → coIdx runState0.co ≤ coIdx s'.co) ∧
    (∀ s', Step runState0 s' →
      runState0.stop = false → s'.stop = true → runState0.co = .setStop) ∧
    (runState0.co = .setStop →
      runState0.enq1 = runState0.ack1 ∧ runState0.enq2 = runState0.ack2 ∧
      runState0.enq3 = runState0.ack3 ∧ runState0.enq4 = runState0.ack4) ∧
    (runState0.stop = true ↔ 6 ≤ coIdx runState0.co) ∧
    (∀ s', Step runState0 s' → runState0.co ≠ .drainQ2 → s'.co = .drainQ2 →
      runState0.co = .drainQ1 ∧ runState0.enq1 - runState0.ack1 = 0) ∧
    (∀ s', Step runState0 s' → runState0.co ≠ .drainQ3 → s'.co = .drainQ3 →
      runState0.co = .drainQ2 ∧ runState0.enq2 - runState0.ack2 = 0) ∧
    (∀ s', Step runState0 s' → runState0.co ≠ .drainQ4 → s'.co = .drainQ4 →
      runState0.co = .drainQ3 ∧ runState0.enq3 - runState0.ack3 = 0) ∧
    (∀ s', Step runState0 s' → runState0.co ≠ .setStop → s'.co = .setStop →
      runState0.co = .drainQ4 ∧ runState0.enq4 - runState0.ack4 = 0) ∧
    (runState0.co = .joining → ∃ u, Step runState0 u ∧ u.co = .finished) :=
  coordinator_drain_protocol reach0

/-- C10: because each stage has exactly one worker and each queue is FIFO,
dishes reach `completed_dishes` in exactly the order they were fed into
stage 1: after the run, the sink's id sequence equals the generated input
id sequence (no permutation). -/
theorem completed_in_input_order {kinds : Nat → DType} {n : Nat} {s : PState}
    (h : Reach kinds n s) (hf : s.co = .finished) :
    s.completed.map Dish.dish_id = (generateDishes kinds n).map Dish.dish_id :=
  completed_eq (reach_inv h) (by rw [hf]; simp [coIdx])

theorem completed_in_input_order_witness :
    runState1.completed.map Dish.dish_id =
      (generateDishes kindsP 1).map Dish.dish_id :=
  completed_in_input_order reach1 rfl

/-- C8: feeding the same seeded generator output through the sequential
strategy and through the concurrent pipeline yields identical final status
lists (all `"stored"`) and the same number of processed dishes, for every
dish count and every type-draw stream. -/
theorem strategies_agree {kinds : Nat → DType} {n : Nat} {s : PState}
    (h : Reach kinds n s) (hf : s.co = .finished) :
    (sequentialRun kinds n).map Dish.status = s.completed.map Dish.status ∧
    (sequentialRun kinds n).map Dish.status = List.replicate n St.stored ∧
    (sequentialRun kinds n).length = s.completed.length ∧
    s.completed.length = n := by
  have hInv := reach_inv h
  have hc := completed_eq hInv (by rw [hf]; simp [coIdx])
  have hlen : s.completed.length = n := by
    have hl := congrArg List.length hc
    simpa using hl
  have hpar : s.completed.map Dish.status = List.replicate n St.stored := by
    rw [List.eq_replicate_iff]
    constructor
    · simpa using hlen
    · intro b hb
      simp only [List.mem_map] at hb
      obtain ⟨d, hd, rfl⟩ := hb
      exact (hInv.histDone d hd).1
  refine ⟨?_, sequentialRun_status kinds n, ?_, hlen⟩
  · rw [hpar, sequentialRun_status]
  · simp [sequentialRun, hlen]

theorem strategies_agree_witness :
    (sequentialRun kindsP 1).map Dish.status = runState1.completed.map Dish.status ∧
    (sequentialRun kindsP 1).map Dish.status = List.replicate 1 St.stored ∧
    (sequentialRun kindsP 1).length = runState1.completed.length ∧
    runState1.completed.length = 1 :=
  strategies_agree reach1 rfl

/-- Per-step discipline of the four stage workers: for the dish a worker is
processing, the status assignment comes first; the handoff (enqueue to the
next queue, or append to `completed_dishes` for the store worker) comes
second, leaving `task_done` still pending; and the `task_done()`
acknowledgement comes last.  Nothing else ever changes a worker's slot. -/
def workerOrder (s s' : PState) : Prop :=
  ∀ d : Dish,
    (s.w1 = .gotDish d → s'.w1 = .gotDish d ∨
      (s'.w1 = .setDone (setStatus St.prerinsed d) ∧ s'.q2 = s.q2 ∧ s'.ack1 = s.ack1)) ∧
    (s.w1 = .setDone d → s'.w1 = .setDone d ∨
      (s'.w1 = .putDone d ∧ s'.q2 = s.q2 ++ [d] ∧ s'.ack1 = s.ack1)) ∧
    (s.w1 = .putDone d → s'.w1 = .putDone d ∨
      (s'.w1 = .idle ∧ s'.q2 = s.q2 ∧ s'.ack1 = s.ack1 + 1)) ∧
    (s.w2 = .gotDish d → s'.w2 = .gotDish d ∨
      (s'.w2 = .setDone (setStatus St.washed d) ∧ s'.q3 = s.q3 ∧ s'.ack2 = s.ack2)) ∧
    (s.w2 = .setDone d → s'.w2 = .setDone d ∨
      (s'.w2 = .putDone d ∧ s'.q3 = s.q3 ++ [d] ∧ s'.ack2 = s.ack2)) ∧
    (s.w2 = .putDone d → s'.w2 = .putDone d ∨
      (s'.w2 = .idle ∧ s'.q3 = s.q3 ∧ s'.ack2 = s.ack2 + 1)) ∧
    (s.w3 = .gotDish d → s'.w3 = .gotDish d ∨
      (s'.w3 = .setDone (setStatus St.dried d) ∧ s'.q4 = s.q4 ∧ s'.ack3 = s.ack3)) ∧
    (s.w3 = .setDone d → s'.w3 = .setDone d ∨
      (s'.w3 = .putDone d ∧ s'.q4 = s.q4 ++ [d] ∧ s'.ack3 = s.ack3)) ∧
    (s.w3 = .putDone d → s'.w3 = .putDone d ∨
      (s'.w3 = .idle ∧ s'.q4 = s.q4 ∧ s'.ack3 = s.ack3 + 1)) ∧
    (s.w4 = .gotDish d → s'.w4 = .gotDish d ∨
      (s'.w4 = .setDone (setStatus St.stored d) ∧ s'.completed = s.completed ∧
        s'.ack4 = s.ack4)) ∧
    (s.w4 = .setDone d → s'.w4 = .setDone d ∨
      (s'.w4 = .putDone d ∧ s'.completed = s.completed ++ [d] ∧ s'.ack4 = s.ack4)) ∧
    (s.w4 = .putDone d → s'.w4 = .putDone d ∨
      (s'.w4 = .idle ∧ s'.completed = s.completed ∧ s'.ack4 = s.ack4 + 1))

theorem step_workerOrder {s s' : PState} (hs : Step s s') : workerOrder s s' := by
  intro d
  refine ⟨?_, ?_, ?_, ?_, ?_, ?_, ?_, ?_, ?_, ?_, ?_, ?_⟩ <;>
    (intro hd; cases hs <;> first | exact Or.inl hd | simp_all)

/-- C4: for every dish a worker dequeues, the status assignment happens
first, then the handoff downstream, and only then `task_done()` on the
input queue; consequently whenever `queue_i.join()` has returned, every
dish that queue ever held has already been passed beyond stage `i` (the
chain from the sink down to stage `i+1`'s queue holds all generated ids). -/
theorem worker_step_discipline {kinds : Nat → DType} {n : Nat} {s : PState}
    (h : Reach kinds n s) :
    (∀ s', Step s s' → workerOrder s s') ∧
    (2 ≤ coIdx s.co →
      (s.completed ++ holdL s.w4 ++ s.q4 ++ holdL s.w3 ++ s.q3 ++
        holdL s.w2 ++ s.q2).map Dish.dish_id
        = (generateDishes kinds n).map Dish.dish_id) ∧
    (3 ≤ coIdx s.co →
      (s.completed ++ holdL s.w4 ++ s.q4 ++ holdL s.w3 ++ s.q3).map Dish.dish_id
        = (generateDishes kinds n).map Dish.dish_id) ∧
    (4 ≤ coIdx s.co →
      (s.completed ++ holdL s.w4 ++ s.q4).map Dish.dish_id
        = (generateDishes kinds n).map Dish.dish_id) ∧
    (5 ≤ coIdx s.co →
      s.completed.map Dish.dish_id = (generateDishes kinds n).map Dish.dish_id) := by
  have hInv := reach_inv h
  exact ⟨fun _ hs => step_workerOrder hs,
    fun hc => downstream1_eq hInv hc, fun hc => downstream2_eq hInv hc,
    fun hc => downstream3_eq hInv hc, fun hc => completed_eq hInv hc⟩

theorem worker_step_discipline_witness :
    (∀ s', Step runState1 s' → workerOrder runState1 s') ∧
    (2 ≤ coIdx runState1.co →
      (runState1.completed ++ holdL runState1.w4 ++ runState1.q4 ++
        holdL runState1.w3 ++ runState1.q3 ++ holdL runState1.w2 ++
        runState1.q2).map Dish.dish_id
        = (generateDishes kindsP 1).map Dish.dish_id) ∧
    (3 ≤ coIdx runState1.co →
      (runState1.completed ++ holdL runState1.w4 ++ runState1.q4 ++
        holdL runState1.w3 ++ runState1.q3).map Dish.dish_id
        = (generateDishes kindsP 1).map Dish.dish_id) ∧
    (4 ≤ coIdx runState1.co →
      (runState1.completed ++ holdL runState1.w4 ++ runState1.q4).map Dish.dish_id
        = (generateDishes kindsP 1).map Dish.dish_id) ∧
    (5 ≤ coIdx runState1.co →
      runState1.completed.map Dish.dish_id
        = (generateDishes kindsP 1).map Dish.dish_id) :=
  worker_step_discipline reach1

/-- A worker's loop can only terminate when the shutdown flag is observed
set, and at any reachable moment where the flag is set the worker's input
queue is empty and fully acknowledged. -/
def exitGuard (s s' : PState) : Prop :=
  (s'.w1 = .exited → s.w1 = .exited ∨
    (s.stop = true ∧ s.q1 = [] ∧ s.enq1 - s.ack1 = 0)) ∧
  (s'.w2 = .exited → s.w2 = .exited ∨
    (s.stop = true ∧ s.q2 = [] ∧ s.enq2 - s.ack2 = 0)) ∧
  (s'.w3 = .exited → s.w3 = .exited ∨
    (s.stop = true ∧ s.q3 = [] ∧ s.enq3 - s.ack3 = 0)) ∧
  (s'.w4 = .exited → s.w4 = .exited ∨
    (s.stop = true ∧ s.q4 = [] ∧ s.enq4 - s.ack4 = 0))

/-- C5: a stage worker exits its polling loop only when the shutdown flag is
set, and at that moment its input queue is empty with no unacknowledged
item (`unfinished_tasks = 0`) — a worker never exits while its input queue
still holds work. -/
theorem worker_exit_only_on_stop {kinds : Nat → DType} {n : Nat} {s s' : PState}
    (h : Reach kinds n s) (hs : Step s s') : exitGuard s s' := by
  have hInv := reach_inv h
  have hf := stop_queues_empty hInv
  refine ⟨?_, ?_, ?_, ?_⟩ <;>
    (intro hex; cases hs <;> first | exact Or.inl hex | simp_all)

theorem worker_exit_only_on_stop_witness :
    exitGuard runState1 { runState1 with w1 := .exited } :=
  worker_exit_only_on_stop reach1 (Step.exitA _ rfl rfl)

/-- C9: each queue's `unfinished_tasks` count is never negative; it is zero
exactly when every dish ever enqueued has been both dequeued and
acknowledged by `task_done()` (at which point the buffer is empty); and
after the four-queue drain sequence completes, all four counts are zero. -/
theorem queue_pending_accounting {kinds : Nat → DType} {n : Nat} {s : PState}
    (h : Reach kinds n s) :
    (0 ≤ (s.enq1 : ℤ) - (s.ack1 : ℤ) ∧
      (((s.enq1 : ℤ) - (s.ack1 : ℤ) = 0) ↔
        (s.deq1 = s.enq1 ∧ s.ack1 = s.enq1 ∧ s.q1 = []))) ∧
    (0 ≤ (s.enq2 : ℤ) - (s.ack2 : ℤ) ∧
      (((s.enq2 : ℤ) - (s.ack2 : ℤ) = 0) ↔
        (s.deq2 = s.enq2 ∧ s.ack2 = s.enq2 ∧ s.q2 = []))) ∧
    (0 ≤ (s.enq3 : ℤ) - (s.ack3 : ℤ) ∧
      (((s.enq3 : ℤ) - (s.ack3 : ℤ) = 0) ↔
        (s.deq3 = s.enq3 ∧ s.ack3 = s.enq3 ∧ s.q3 = []))) ∧
    (0 ≤ (s.enq4 : ℤ) - (s.ack4 : ℤ) ∧
      (((s.enq4 : ℤ) - (s.ack4 : ℤ) = 0) ↔
        (s.deq4 = s.enq4 ∧ s.ack4 = s.enq4 ∧ s.q4 = []))) ∧
    (5 ≤ coIdx s.co →
      s.enq1 - s.ack1 = 0 ∧ s.enq2 - s.ack2 = 0 ∧
      s.enq3 - s.ack3 = 0 ∧ s.enq4 - s.ack4 = 0) := by
  have hInv := reach_inv h
  have l1 := hInv.lenq1
  have l2 := hInv.lenq2
  have l3 := hInv.lenq3
  have l4 := hInv.lenq4
  have f1 := hInv.flight1
  have f2 := hInv.flight2
  have f3 := hInv.flight3
  have f4 := hInv.flight4
  refine ⟨⟨by omega, ?_, ?_⟩, ⟨by omega, ?_, ?_⟩, ⟨by omega, ?_, ?_⟩,
    ⟨by omega, ?_, ?_⟩, ?_⟩
  · intro hz
    have hq : s.q1.length = 0 := by omega
    exact ⟨by omega, by omega, List.length_eq_zero.mp hq⟩
  · rintro ⟨h1, h2, h3⟩; omega
  · intro hz
    have hq : s.q2.length = 0 := by omega
    exact ⟨by omega, by omega, List.length_eq_zero.mp hq⟩
  · rintro ⟨h1, h2, h3⟩; omega
  · intro hz
    have hq : s.q3.length = 0 := by omega
    exact ⟨by omega, by omega, List.length_eq_zero.mp hq⟩
  · rintro ⟨h1, h2, h3⟩; omega
  · intro hz
    have hq : s.q4.length = 0 := by omega
    exact ⟨by omega, by omega, List.length_eq_zero.mp hq⟩
  · rintro ⟨h1, h2, h3⟩; omega
  · intro hc
    have c1 := hInv.cohA (by omega)
    have c2 := hInv.cohB (by omega)
    have c3 := hInv.cohC (by omega)
    have c4 := hInv.cohD (by omega)
    exact ⟨by omega, by omega, by omega, by omega⟩

theorem queue_pending_accounting_witness :
    (0 ≤ (runState1.enq1 : ℤ) - (runState1.ack1 : ℤ) ∧
      (((runState1.enq1 : ℤ) - (runState1.ack1 : ℤ) = 0) ↔
        (runState1.deq1 = runState1.enq1 ∧ runState1.ack1 = runState1.enq1 ∧
          runState1.q1 = []))) ∧
    (0 ≤ (runState1.enq2 : ℤ) - (runState1.ack2 : ℤ) ∧
      (((runState1.enq2 : ℤ) - (runState1.ack2 : ℤ) = 0) ↔
        (runState1.deq2 = runState1.enq2 ∧ runState1.ack2 = runState1.enq2 ∧
          runState1.q2 = []))) ∧
    (0 ≤ (runState1.enq3 : ℤ) - (runState1.ack3 : ℤ) ∧
      (((runState1.enq3 : ℤ) - (runState1.ack3 : ℤ) = 0) ↔
        (runState1.deq3 = runState1.enq3 ∧ runState1.ack3 = runState1.enq3 ∧
          runState1.q3 = []))) ∧
    (0 ≤ (runState1.enq4 : ℤ) - (runState1.ack4 : ℤ) ∧
      (((runState1.enq4 : ℤ) - (runState1.ack4 : ℤ) = 0) ↔
        (runState1.deq4 = runState1.enq4 ∧ runState1.ack4 = runState1.enq4 ∧
          runState1.q4 = []))) ∧
    (5 ≤ coIdx runState1.co →
      runState1.enq1 - runState1.ack1 = 0 ∧ runState1.enq2 - runState1.ack2 = 0 ∧
      runState1.enq3 - runState1.ack3 = 0 ∧ runState1.enq4 - runState1.ack4 = 0) :=
  queue_pending_accounting reach1

/-- C6: the claim states the intended behaviour — `item_count = 0` should
complete with `items_processed = 0` and well-defined metrics, never a
division fault — but the code slips in BOTH strategies: the sequential
`process_sequential` divides `elapsed_time / self.num_dishes` with no
guard, and the parallel `process_parallel`, despite guarding its
average-time division with `if dishes_completed > 0`, divides
`dishes_completed / self.num_dishes` unguarded in its efficiency
computation before returning.  At the failing input `item_count = 0`
(elapsed time 1) both embedded metric computations evaluate to `none`,
the embedding of a raised `ZeroDivisionError`. -/
theorem zero_dishes_division_fault :
    sequentialMetrics 1 0 = none ∧ parallelMetrics 1 0 0 = none := by
  constructor
  · norm_num [sequentialMetrics, fdiv]
  · norm_num [parallelMetrics, fdiv]

/-- C7: both run operations return a metrics record with exactly the four
fields `execution_time`, `throughput`, `avg_time_per_dish`,
`dishes_processed` (the spec names the last two `avg_time_per_item` and
`items_processed`); for a completed parallel run with at least one dish,
`throughput = completed / elapsed` and `avg_time_per_dish =
elapsed / completed` where `completed` is the final size of
`completed_dishes` (which equals `n`); with `n > 0` the unguarded
efficiency division cannot fault; the sequential record satisfies the
same formulas with its processed count. -/
theorem metrics_record_formulas {kinds : Nat → DType} {n : Nat} {s : PState}
    (h : Reach kinds n s) (hf : s.co = .finished) (hn : 0 < n)
    (elapsed : ℚ) (he : elapsed ≠ 0) :
    s.completed.length = n ∧
    parallelMetrics elapsed n s.completed.length =
      some { execution_time := elapsed,
             throughput := (s.completed.length : ℚ) / elapsed,
             avg_time_per_dish := elapsed / (s.completed.length : ℚ),
             dishes_processed := s.completed.length } ∧
    sequentialMetrics elapsed n =
      some { execution_time := elapsed,
             throughput := (n : ℚ) / elapsed,
             avg_time_per_dish := elapsed / (n : ℚ),
             dishes_processed := n } := by
  have hInv := reach_inv h
  have hc := completed_eq hInv (by rw [hf]; simp [coIdx])
  have hlen : s.completed.length = n := by
    have hl := congrArg List.length hc
    simpa using hl
  have hpos : 0 < s.completed.length := by omega
  have hn0 : (n : ℚ) ≠ 0 := Nat.cast_ne_zero.mpr (by omega)
  refine ⟨hlen, ?_, ?_⟩
  · unfold parallelMetrics
    rw [fdiv_of_ne _ _ he, fdiv_of_ne _ _ hn0]
    simp [hpos]
  · unfold sequentialMetrics
    rw [fdiv_of_ne _ _ he, fdiv_of_ne _ _ hn0]

theorem metrics_record_formulas_witness :
    runState1.completed.length = 1 ∧
    parallelMetrics 1 1 runState1.completed.length =
      some { execution_time := 1,
             throughput := (runState1.completed.length : ℚ) / 1,
             avg_time_per_dish := 1 / (runState1.completed.length : ℚ),
             dishes_processed := runState1.completed.length } ∧
    sequentialMetrics 1 1 =
      some { execution_time := 1,
             throughput := ((1 : Nat) : ℚ) / 1,
             avg_time_per_dish := 1 / ((1 : Nat) : ℚ),
             dishes_processed := 1 } :=
  metrics_record_formulas reach1 rfl (by norm_num) 1 (by norm_num)

end Dishwashing
